import Mathlib

/-!
Shallow embedding of the per-voice DSP core of FluidSynth
(src/fluidsynth/src/fluid_dsp_core.c) and of the 24-bit sample
reconstruction helper (src/src/rvoice/fluid_rvoice.h), together with
theorems settling the specification claims about them.

Conventions of the embedding:
* `fluid_real_t` values (amplitudes, filter coefficients, buffer samples)
  are modelled by exact rationals `ℚ`; the claims are about the exact
  arithmetic structure of the loops.
* Raw waveform data (`short *dsp_data`) is modelled as `ℕ → ℤ`, coerced
  to `ℚ` where the C code promotes to `fluid_real_t`.
* Audio buffers are total maps `ℕ → ℚ`; a C store `buf[i] = v` becomes a
  pointwise update.  Null-able effect buffers are `Option (ℕ → ℚ)`.
* The phase accumulator type (`fluid_phase.h` is not part of the sources)
  is modelled from the spec as a 64-bit fixed-point number with a 32-bit
  integer index and a 32-bit fraction, held in a natural number taken
  modulo `2 ^ 64`.
-/

/- ### Phase accumulator (modelled from the spec, `fluid_phase.h` missing) -/

/-- Modelled from the spec: `fluid_phase.h` is not among the sources.  The
spec (§3 Phase) mandates a fixed-point quantity with an integer sample
index and a fractional part in `[0,1)` with carry propagation; we pick a
64-bit word with 32 fractional bits.  `fluid_phase_index` extracts the
integer sample index (the top 32 bits). -/
def fluid_phase_index (p : ℕ) : ℕ := p / 2 ^ 32

/-- Modelled from the spec: the fractional part of a phase (low 32 bits). -/
def fluid_phase_fract (p : ℕ) : ℕ := p % 2 ^ 32

/-- Modelled from the spec: advance a phase by one phase increment, with
carry from the fractional into the integer part (fixed-point addition
modulo the 64-bit word). -/
def fluid_phase_incr (p incr : ℕ) : ℕ := (p + incr) % 2 ^ 64

/-- Modelled from the spec: `fluid_phase_index_plusplus` returns the
current integer index and advances the phase by exactly one whole sample
(the integer field is incremented, the fraction is untouched). -/
def fluid_phase_index_plusplus (p : ℕ) : ℕ × ℕ :=
  (fluid_phase_index p, (p + 2 ^ 32) % 2 ^ 64)

/-- Modelled from the spec: quantize the fractional phase to a row of the
interpolation-coefficient tables.  The spec leaves the granularity open;
we use the top 8 fractional bits (256 rows).  No claim depends on the
granularity or on the table contents. -/
def fluid_phase_fract_to_tablerow (p : ℕ) : ℕ := fluid_phase_fract p / 2 ^ 24

/- ### Denormal flush (`zap_almost_zero`, double build) -/

/-- C conversion of a `double` to `int`: truncation toward zero.  Used
because the macro `zap_almost_zero` applies the integer `abs` from the C
library to a `fluid_real_t` argument, which first converts it to `int`. -/
def c_int_of_double (x : ℚ) : ℤ := if 0 ≤ x then ⌊x⌋ else ⌈x⌉

/-- The `zap_almost_zero` macro of the double build:
`abs(sample) < 1e-20 ? 0 : sample`.  `abs` is the integer `abs` of the C
standard library, so the sample is first truncated to an `int`; the
comparison against the literal `1e-20` therefore only tests whether the
truncation is zero. -/
def zap_almost_zero (sample : ℚ) : ℚ :=
  if ((|c_int_of_double sample| : ℤ) : ℚ) < 1 / 10 ^ 20 then 0 else sample

/-- The behaviour the surrounding comments document for
`zap_almost_zero` (threshold `1e-20` on the magnitude of the sample
itself): flush to zero below the threshold, keep the value otherwise. -/
def zap_almost_zero_documented (sample : ℚ) : ℚ :=
  if |sample| < 1 / 10 ^ 20 then 0 else sample

/- ### Interpolation stage -/

/-- The interpolation method selector (`enum fluid_interp`). -/
inductive fluid_interp where
  | FLUID_INTERP_NONE
  | FLUID_INTERP_LINEAR
  | FLUID_INTERP_4THORDER
  | FLUID_INTERP_7THORDER
deriving DecidableEq

/-- One row of the two-tap linear interpolation table
(`interp_coeff_linear`). -/
structure InterpCoeffLin where
  a0 : ℚ
  a1 : ℚ

/-- One row of the four-tap interpolation table (`interp_coeff`). -/
structure InterpCoeff where
  a0 : ℚ
  a1 : ℚ
  a2 : ℚ
  a3 : ℚ

/-- The state mutated by the interpolation loops: the scratch buffer
`dsp_buf`, the running amplitude `dsp_amp` and the phase `dsp_phase`. -/
structure InterpState where
  buf : ℕ → ℚ
  amp : ℚ
  phase : ℕ

/-- The fast-path loop (lines 105-109): the phase falls exactly on a
sample and the increment is exactly one sample, so each output is
`dsp_amp * dsp_data[fluid_phase_index_plusplus(dsp_phase)]` and the
amplitude is ramped. -/
def fastPathLoop (data : ℕ → ℤ) (ampIncr : ℚ) : ℕ → ℕ → InterpState → InterpState
  | 0, _, st => st
  | n + 1, i, st =>
    fastPathLoop data ampIncr n (i + 1)
      { buf := fun j =>
          if j = i then st.amp * ((data (fluid_phase_index_plusplus st.phase).1 : ℤ) : ℚ)
          else st.buf j
        amp := st.amp + ampIncr
        phase := (fluid_phase_index_plusplus st.phase).2 }

/-- The `FLUID_INTERP_NONE` loop (lines 121-128): nearest sample at the
truncated index. -/
def interpNoneLoop (data : ℕ → ℤ) (phaseIncr : ℕ) (ampIncr : ℚ) :
    ℕ → ℕ → InterpState → InterpState
  | 0, _, st => st
  | n + 1, i, st =>
    interpNoneLoop data phaseIncr ampIncr n (i + 1)
      { buf := fun j =>
          if j = i then st.amp * ((data (fluid_phase_index st.phase) : ℤ) : ℚ)
          else st.buf j
        amp := st.amp + ampIncr
        phase := fluid_phase_incr st.phase phaseIncr }

/-- The `FLUID_INTERP_LINEAR` loop (lines 133-143): two-tap weighted sum
with weights from `interp_coeff_linear`. -/
def interpLinearLoop (data : ℕ → ℤ) (interp_coeff_linear : ℕ → InterpCoeffLin)
    (phaseIncr : ℕ) (ampIncr : ℚ) : ℕ → ℕ → InterpState → InterpState
  | 0, _, st => st
  | n + 1, i, st =>
    let coeff := interp_coeff_linear (fluid_phase_fract_to_tablerow st.phase)
    let idx := fluid_phase_index st.phase
    interpLinearLoop data interp_coeff_linear phaseIncr ampIncr n (i + 1)
      { buf := fun j =>
          if j = i then st.amp * (coeff.a0 * ((data idx : ℤ) : ℚ) + coeff.a1 * ((data (idx + 1) : ℤ) : ℚ))
          else st.buf j
        amp := st.amp + ampIncr
        phase := fluid_phase_incr st.phase phaseIncr }

/-- The default `FLUID_INTERP_4THORDER` loop (lines 313-326): four-tap
weighted sum with weights from `interp_coeff`.  (The SSE variant is
compiled out by `if (0 && ...)`.) -/
def interp4thLoop (data : ℕ → ℤ) (interp_coeff : ℕ → InterpCoeff)
    (phaseIncr : ℕ) (ampIncr : ℚ) : ℕ → ℕ → InterpState → InterpState
  | 0, _, st => st
  | n + 1, i, st =>
    let coeff := interp_coeff (fluid_phase_fract_to_tablerow st.phase)
    let idx := fluid_phase_index st.phase
    interp4thLoop data interp_coeff phaseIncr ampIncr n (i + 1)
      { buf := fun j =>
          if j = i then st.amp *
            (coeff.a0 * ((data idx : ℤ) : ℚ) + coeff.a1 * ((data (idx + 1) : ℤ) : ℚ)
              + coeff.a2 * ((data (idx + 2) : ℤ) : ℚ) + coeff.a3 * ((data (idx + 3) : ℤ) : ℚ))
          else st.buf j
        amp := st.amp + ampIncr
        phase := fluid_phase_incr st.phase phaseIncr }

/-- The `FLUID_INTERP_7THORDER` loop (lines 335-350): seven-tap weighted
sum with weights from `sinc_table7`. -/
def interp7thLoop (data : ℕ → ℤ) (sinc_table7 : ℕ → ℕ → ℚ)
    (phaseIncr : ℕ) (ampIncr : ℚ) : ℕ → ℕ → InterpState → InterpState
  | 0, _, st => st
  | n + 1, i, st =>
    let fract := fluid_phase_fract_to_tablerow st.phase
    let idx := fluid_phase_index st.phase
    interp7thLoop data sinc_table7 phaseIncr ampIncr n (i + 1)
      { buf := fun j =>
          if j = i then st.amp *
            (sinc_table7 0 fract * ((data idx : ℤ) : ℚ)
              + sinc_table7 1 fract * ((data (idx + 1) : ℤ) : ℚ)
              + sinc_table7 2 fract * ((data (idx + 2) : ℤ) : ℚ)
              + sinc_table7 3 fract * ((data (idx + 3) : ℤ) : ℚ)
              + sinc_table7 4 fract * ((data (idx + 4) : ℤ) : ℚ)
              + sinc_table7 5 fract * ((data (idx + 5) : ℤ) : ℚ)
              + sinc_table7 6 fract * ((data (idx + 6) : ℤ) : ℚ))
          else st.buf j
        amp := st.amp + ampIncr
        phase := fluid_phase_incr st.phase phaseIncr }

/-- The interpolation stage (lines 95-354): the fast-path special case is
tested first; otherwise the loop selected by `dsp_interp_method` runs
(`FLUID_INTERP_4THORDER` is also the `default:` label of the `switch`). -/
def interpolateBlock (method : fluid_interp) (data : ℕ → ℤ)
    (interp_coeff_linear : ℕ → InterpCoeffLin) (interp_coeff : ℕ → InterpCoeff)
    (sinc_table7 : ℕ → ℕ → ℚ) (dspStart dspEnd : ℕ) (phaseIncr : ℕ) (ampIncr : ℚ)
    (st : InterpState) : InterpState :=
  if fluid_phase_fract st.phase = 0 ∧ fluid_phase_fract phaseIncr = 0
      ∧ fluid_phase_index phaseIncr = 1 then
    fastPathLoop data ampIncr (dspEnd - dspStart) dspStart st
  else
    match method with
    | .FLUID_INTERP_NONE =>
        interpNoneLoop data phaseIncr ampIncr (dspEnd - dspStart) dspStart st
    | .FLUID_INTERP_LINEAR =>
        interpLinearLoop data interp_coeff_linear phaseIncr ampIncr (dspEnd - dspStart) dspStart st
    | .FLUID_INTERP_4THORDER =>
        interp4thLoop data interp_coeff phaseIncr ampIncr (dspEnd - dspStart) dspStart st
    | .FLUID_INTERP_7THORDER =>
        interp7thLoop data sinc_table7 phaseIncr ampIncr (dspEnd - dspStart) dspStart st

/- ### Resonant filter stage -/

/-- The state read and written by the filter loops (lines 357-411): the
scratch buffer, the two history registers, the four coefficients
(`b0`/`b2` folded into `b02`), and the remaining coefficient-increment
count (a C `int`, modelled as `ℤ`). -/
structure FilterState where
  buf : ℕ → ℚ
  hist1 : ℚ
  hist2 : ℚ
  a1 : ℚ
  a2 : ℚ
  b02 : ℚ
  b1 : ℚ
  filter_coeff_incr_count : ℤ

/-- The transitioning-coefficient filter loop (lines 378-391): each
iteration applies the Direct-Form-II recurrence and then, when the
post-decremented counter was still positive, adds the per-sample
increment to each coefficient.  The counter is decremented on every
iteration. -/
def filterTransLoop (a1_incr a2_incr b02_incr b1_incr : ℚ) :
    ℕ → ℕ → FilterState → FilterState
  | 0, _, st => st
  | n + 1, i, st =>
    let centernode := st.buf i - st.a1 * st.hist1 - st.a2 * st.hist2
    let out := st.b02 * (centernode + st.hist2) + st.b1 * st.hist1
    let c := st.filter_coeff_incr_count
    filterTransLoop a1_incr a2_incr b02_incr b1_incr n (i + 1)
      { buf := fun j => if j = i then out else st.buf j
        hist1 := centernode
        hist2 := st.hist1
        a1 := if 0 < c then st.a1 + a1_incr else st.a1
        a2 := if 0 < c then st.a2 + a2_incr else st.a2
        b02 := if 0 < c then st.b02 + b02_incr else st.b02
        b1 := if 0 < c then st.b1 + b1_incr else st.b1
        filter_coeff_incr_count := c - 1 }

/-- The static-coefficient filter loop (lines 403-409). -/
def filterStaticLoop : ℕ → ℕ → FilterState → FilterState
  | 0, _, st => st
  | n + 1, i, st =>
    let centernode := st.buf i - st.a1 * st.hist1 - st.a2 * st.hist2
    let out := st.b02 * (centernode + st.hist2) + st.b1 * st.hist1
    filterStaticLoop n (i + 1)
      { st with
        buf := fun j => if j = i then out else st.buf j
        hist1 := centernode
        hist2 := st.hist1 }

/-- The filter stage (lines 357-411): when `dsp_use_filter_flag` is set,
`dsp_hist1` is first flushed by `zap_almost_zero`, then either the
transitioning loop (if `dsp_filter_coeff_incr_count > 0`) or the static
loop runs over the block. -/
def filterStage (dsp_use_filter_flag : Bool) (a1_incr a2_incr b02_incr b1_incr : ℚ)
    (dspStart dspEnd : ℕ) (st : FilterState) : FilterState :=
  if dsp_use_filter_flag then
    let st1 := { st with hist1 := zap_almost_zero st.hist1 }
    if 0 < st1.filter_coeff_incr_count then
      filterTransLoop a1_incr a2_incr b02_incr b1_incr (dspEnd - dspStart) dspStart st1
    else
      filterStaticLoop (dspEnd - dspStart) dspStart st1
  else st

/-- The Direct-Form-II recurrence as the spec states it (§4.3):
`centernode = in − a1·hist1 − a2·hist2;
 out = b02·(centernode + hist2) + b1·hist1;
 hist2 ← hist1; hist1 ← centernode`.
Returns the output sample and the new `(hist1, hist2)` pair.  This is the
spec-side definition used to state the refinement claim about the two
filter loops. -/
def directFormII (a1 a2 b02 b1 : ℚ) (hist : ℚ × ℚ) (x : ℚ) : ℚ × (ℚ × ℚ) :=
  let centernode := x - a1 * hist.1 - a2 * hist.2
  (b02 * (centernode + hist.2) + b1 * hist.1, (centernode, hist.1))

/-- The filter state as it stands just before sample `i` of the block is
processed: the denormal flush has been applied and whichever loop the
block uses (transitioning when `dsp_filter_coeff_incr_count > 0`, static
otherwise) has run over the samples `[dspStart, i)`. -/
def filterStateBefore (a1_incr a2_incr b02_incr b1_incr : ℚ) (dspStart i : ℕ)
    (st : FilterState) : FilterState :=
  let st1 := { st with hist1 := zap_almost_zero st.hist1 }
  if 0 < st1.filter_coeff_incr_count then
    filterTransLoop a1_incr a2_incr b02_incr b1_incr (i - dspStart) dspStart st1
  else
    filterStaticLoop (i - dspStart) dspStart st1

/- ### Pan / mixdown and effect sends -/

/-- One accumulate loop `dest[i] += g * dsp_buf[i]` over the block, as in
the one-channel pan loops (lines 527-529, 532-534) and the effect-send
loops (lines 540-542, 547-549). -/
def addScaledLoop (g : ℚ) (src : ℕ → ℚ) : ℕ → ℕ → (ℕ → ℚ) → (ℕ → ℚ)
  | 0, _, dest => dest
  | n + 1, i, dest =>
    addScaledLoop g src n (i + 1) (fun j => if j = i then dest j + g * src j else dest j)

/-- The centered-pan loop (lines 516-520): the product
`v = amp_left * dsp_buf[i]` is computed once and added to both the left
and the right buffer. -/
def panCenterLoop (g : ℚ) (src : ℕ → ℚ) :
    ℕ → ℕ → (ℕ → ℚ) × (ℕ → ℚ) → (ℕ → ℚ) × (ℕ → ℚ)
  | 0, _, lr => lr
  | n + 1, i, lr =>
    let v := g * src i
    panCenterLoop g src n (i + 1)
      (fun j => if j = i then lr.1 j + v else lr.1 j,
       fun j => if j = i then lr.2 j + v else lr.2 j)

/-- The pan stage (lines 513-536): if `voice->pan` lies strictly inside
`(-0.5, 0.5)` the centered loop runs with `voice->amp_left` used for both
channels; otherwise each channel's accumulate loop runs only when its
gain is non-zero.  Returns the new `(dsp_left_buf, dsp_right_buf)`. -/
def panStage (pan amp_left amp_right : ℚ) (src : ℕ → ℚ) (dspStart dspEnd : ℕ)
    (left right : ℕ → ℚ) : (ℕ → ℚ) × (ℕ → ℚ) :=
  if pan < 1 / 2 ∧ -(1 / 2) < pan then
    panCenterLoop amp_left src (dspEnd - dspStart) dspStart (left, right)
  else
    (if amp_left ≠ 0 then addScaledLoop amp_left src (dspEnd - dspStart) dspStart left
     else left,
     if amp_right ≠ 0 then addScaledLoop amp_right src (dspEnd - dspStart) dspStart right
     else right)

/-- One effect send (the reverb send, lines 539-543, and the chorus send,
lines 546-550, are textually identical): if the destination buffer
pointer is non-null (`some`) and the gain is non-zero, accumulate
`gain * dsp_buf[i]` over the block; a null destination is returned
untouched. -/
def sendStage (dest : Option (ℕ → ℚ)) (g : ℚ) (src : ℕ → ℚ) (dspStart dspEnd : ℕ) :
    Option (ℕ → ℚ) :=
  match dest with
  | none => none
  | some d =>
      if g ≠ 0 then some (addScaledLoop g src (dspEnd - dspStart) dspStart d)
      else some d

/-- The two effect sends in source order: reverb, then chorus. -/
def effectSends (dsp_reverb_buf dsp_chorus_buf : Option (ℕ → ℚ))
    (amp_reverb amp_chorus : ℚ) (src : ℕ → ℚ) (dspStart dspEnd : ℕ) :
    Option (ℕ → ℚ) × Option (ℕ → ℚ) :=
  (sendStage dsp_reverb_buf amp_reverb src dspStart dspEnd,
   sendStage dsp_chorus_buf amp_chorus src dspStart dspEnd)

/- ### 24-bit sample reconstruction (src/src/rvoice/fluid_rvoice.h) -/

/-- `fluid_rvoice_get_sample` (fluid_rvoice.h lines 214-230): the 16-bit
sample `dsp_msb[idx]` is converted to `uint32_t`, shifted left by 8
(modulo `2 ^ 32`), or-ed with the low byte (`(uint8_t)dsp_lsb[idx]`, or 0
when the pointer is NULL), and the 32-bit result is reinterpreted as a
signed `int32_t`.  `dsp_msb` carries C `short` values, `dsp_lsb` C `char`
values; the casts are modelled by the corresponding modular reductions. -/
def fluid_rvoice_get_sample (dsp_msb : ℕ → ℤ) (dsp_lsb : Option (ℕ → ℤ)) (idx : ℕ) : ℤ :=
  let msb : ℕ := ((dsp_msb idx) % (2 ^ 32 : ℤ)).toNat
  let lsb : ℕ :=
    match dsp_lsb with
    | none => 0
    | some f => ((f idx) % (2 ^ 8 : ℤ)).toNat
  let v : ℕ := ((msb * 2 ^ 8) % 2 ^ 32) ||| lsb
  if v < 2 ^ 31 then (v : ℤ) else (v : ℤ) - 2 ^ 32

/- ### Helper lemmas: accumulate loops -/

theorem addScaledLoop_lt (g : ℚ) (src : ℕ → ℚ) :
    ∀ (n i : ℕ) (dest : ℕ → ℚ) (j : ℕ), j < i → addScaledLoop g src n i dest j = dest j := by
  intro n
  induction n with
  | zero => intro i dest j _; rfl
  | succ n ih =>
      intro i dest j hj
      simp only [addScaledLoop]
      rw [ih (i + 1) _ j (by omega)]
      simp [Nat.ne_of_lt hj]

theorem addScaledLoop_get (g : ℚ) (src : ℕ → ℚ) :
    ∀ (n i : ℕ) (dest : ℕ → ℚ) (j : ℕ), i ≤ j → j < i + n →
      addScaledLoop g src n i dest j = dest j + g * src j := by
  intro n
  induction n with
  | zero => intro i dest j h1 h2; omega
  | succ n ih =>
      intro i dest j h1 h2
      simp only [addScaledLoop]
      rcases eq_or_lt_of_le h1 with h | h
      · rw [addScaledLoop_lt g src n (i + 1) _ j (by omega)]
        simp [← h]
      · rw [ih (i + 1) _ j (by omega) (by omega)]
        simp [Nat.ne_of_gt h]

theorem panCenterLoop_lt (g : ℚ) (src : ℕ → ℚ) :
    ∀ (n i : ℕ) (lr : (ℕ → ℚ) × (ℕ → ℚ)) (j : ℕ), j < i →
      (panCenterLoop g src n i lr).1 j = lr.1 j ∧ (panCenterLoop g src n i lr).2 j = lr.2 j := by
  intro n
  induction n with
  | zero => intro i lr j _; exact ⟨rfl, rfl⟩
  | succ n ih =>
      intro i lr j hj
      simp only [panCenterLoop]
      constructor
      · rw [(ih (i + 1) _ j (by omega)).1]
        simp [Nat.ne_of_lt hj]
      · rw [(ih (i + 1) _ j (by omega)).2]
        simp [Nat.ne_of_lt hj]

theorem panCenterLoop_get (g : ℚ) (src : ℕ → ℚ) :
    ∀ (n i : ℕ) (lr : (ℕ → ℚ) × (ℕ → ℚ)) (j : ℕ), i ≤ j → j < i + n →
      (panCenterLoop g src n i lr).1 j = lr.1 j + g * src j
        ∧ (panCenterLoop g src n i lr).2 j = lr.2 j + g * src j := by
  intro n
  induction n with
  | zero => intro i lr j h1 h2; omega
  | succ n ih =>
      intro i lr j h1 h2
      simp only [panCenterLoop]
      rcases eq_or_lt_of_le h1 with h | h
      · constructor
        · rw [(panCenterLoop_lt g src n (i + 1) _ j (by omega)).1]
          simp [← h]
        · rw [(panCenterLoop_lt g src n (i + 1) _ j (by omega)).2]
          simp [← h]
      · constructor
        · rw [(ih (i + 1) _ j (by omega) (by omega)).1]
          simp [Nat.ne_of_gt h]
        · rw [(ih (i + 1) _ j (by omega) (by omega)).2]
          simp [Nat.ne_of_gt h]

/- ### Claim C2: denormal flush -/

/-- C2: the claim says the flush leaves `hist1` unchanged whenever its
magnitude is above the `1e-20` threshold.  The code disagrees: the macro
applies the C library integer `abs`, which truncates the `double` to
`int` first, so every history value of magnitude below `1.0` is flushed
to zero.  At `hist1 = 1/2` (far above `1e-20`) the code yields `0` while
the documented behaviour keeps `1/2`. -/
theorem zap_almost_zero_flushes_half :
    zap_almost_zero (1 / 2) = 0 ∧ zap_almost_zero_documented (1 / 2) = 1 / 2 := by
  constructor
  · simp [zap_almost_zero, c_int_of_double]
    norm_num
  · rw [zap_almost_zero_documented,
      if_neg (by rw [abs_of_pos (by norm_num : (0 : ℚ) < 1 / 2)]; norm_num)]

/- ### Claim C9: centered pan uses amp_left twice -/

/-- C9: whenever `voice->pan` lies strictly between `-0.5` and `0.5`,
both destination buffers receive `amp_left * dsp_buf[i]` at every sample
index of the block, and `amp_right` is never read: the result of the pan
stage is unchanged under any replacement of `amp_right`. -/
theorem centered_pan_uses_amp_left_twice
    (pan amp_left amp_right amp_right2 : ℚ) (src left right : ℕ → ℚ)
    (dspStart dspEnd j : ℕ)
    (hpan : pan < 1 / 2 ∧ -(1 / 2) < pan) (h1 : dspStart ≤ j) (h2 : j < dspEnd) :
    (panStage pan amp_left amp_right src dspStart dspEnd left right).1 j
        = left j + amp_left * src j
      ∧ (panStage pan amp_left amp_right src dspStart dspEnd left right).2 j
        = right j + amp_left * src j
      ∧ panStage pan amp_left amp_right src dspStart dspEnd left right
        = panStage pan amp_left amp_right2 src dspStart dspEnd left right := by
  have hget := panCenterLoop_get amp_left src (dspEnd - dspStart) dspStart (left, right) j h1
    (by omega)
  refine ⟨?_, ?_, ?_⟩
  · rw [panStage, if_pos hpan]; exact hget.1
  · rw [panStage, if_pos hpan]; exact hget.2
  · rw [panStage, panStage, if_pos hpan, if_pos hpan]

/-- Witness for C9 at a concrete centered voice: amplitude `2` on the
left gain, differing right gains `3` and `5`, a constant source. -/
theorem centered_pan_uses_amp_left_twice_witness :
    (panStage 0 2 3 (fun _ => 1) 0 1 (fun _ => 0) (fun _ => 0)).1 0 = (fun _ => (0 : ℚ)) 0 + 2 * (fun _ => (1 : ℚ)) 0
      ∧ (panStage 0 2 3 (fun _ => 1) 0 1 (fun _ => 0) (fun _ => 0)).2 0 = (fun _ => (0 : ℚ)) 0 + 2 * (fun _ => (1 : ℚ)) 0
      ∧ panStage 0 2 3 (fun _ => 1) 0 1 (fun _ => 0) (fun _ => 0)
        = panStage 0 2 5 (fun _ => 1) 0 1 (fun _ => 0) (fun _ => 0) :=
  centered_pan_uses_amp_left_twice 0 2 3 5 (fun _ => 1) (fun _ => 0) (fun _ => 0) 0 1 0
    (by norm_num) (by omega) (by omega)

/- ### Claim C5: zero pan gain leaves a channel untouched -/

/-- C5 counterexample: with `pan = 0` (inside the dead-zone),
`amp_left = 1` and `amp_right = 0`, the right destination buffer is NOT
left unchanged: the centered branch adds `amp_left * dsp_buf[i]` to both
channels without reading `amp_right`, so the right buffer (initially `0`)
ends at `1`. -/
theorem pan_zero_gain_counterexample :
    (panStage 0 1 0 (fun _ => 1) 0 1 (fun _ => 0) (fun _ => 0)).2 0 ≠ 0 := by
  have h := (centered_pan_uses_amp_left_twice 0 1 0 0 (fun _ => 1) (fun _ => 0) (fun _ => 0)
    0 1 0 (by norm_num) (by omega) (by omega)).2.1
  rw [h]
  norm_num

/-- C5 amended: outside the centered dead-zone `(-0.5, 0.5)` a channel
whose gain is exactly zero has its destination buffer left unchanged (its
add loop is skipped); inside the dead-zone both channels are driven by
`amp_left` alone, so both buffers are left unchanged when `amp_left` is
zero (a zero `amp_right` does not prevent writes there). -/
theorem pan_zero_gain_amended
    (pan amp_left amp_right : ℚ) (src left right : ℕ → ℚ) (dspStart dspEnd : ℕ) :
    (¬(pan < 1 / 2 ∧ -(1 / 2) < pan) →
      (amp_left = 0 →
        (panStage pan amp_left amp_right src dspStart dspEnd left right).1 = left)
      ∧ (amp_right = 0 →
        (panStage pan amp_left amp_right src dspStart dspEnd left right).2 = right))
    ∧ ((pan < 1 / 2 ∧ -(1 / 2) < pan) → amp_left = 0 →
        (panStage pan amp_left amp_right src dspStart dspEnd left right).1 = left
        ∧ (panStage pan amp_left amp_right src dspStart dspEnd left right).2 = right) := by
  constructor
  · intro hpan
    constructor
    · intro hl
      rw [panStage, if_neg hpan]
      simp [hl]
    · intro hr
      rw [panStage, if_neg hpan]
      simp [hr]
  · intro hpan hl
    have key : ∀ n i lr, panCenterLoop (0 : ℚ) src n i lr = lr := by
      intro n
      induction n with
      | zero => intro i lr; rfl
      | succ n ih =>
          intro i lr
          simp only [panCenterLoop]
          rw [show (fun j => if j = i then lr.1 j + 0 * src i else lr.1 j,
                    fun j => if j = i then lr.2 j + 0 * src i else lr.2 j) = lr by
            refine Prod.ext ?_ ?_ <;> funext j <;> by_cases h : j = i <;> simp [h]]
          exact ih (i + 1) lr
    rw [panStage, if_pos hpan, hl, key]
    exact ⟨rfl, rfl⟩

/-- Witness for the amended C5 at concrete inputs: a hard-right voice
(`pan = 1`) with zero left gain keeps the left buffer, and a centered
voice with zero `amp_left` keeps both buffers. -/
theorem pan_zero_gain_amended_witness :
    (panStage 1 0 5 (fun _ => 2) 0 1 (fun _ => 0) (fun _ => 0)).1 = (fun _ => (0 : ℚ))
      ∧ (panStage 0 0 5 (fun _ => 2) 0 1 (fun _ => 0) (fun _ => 0)).2 = (fun _ => (0 : ℚ)) :=
  ⟨((pan_zero_gain_amended 1 0 5 (fun _ => 2) (fun _ => 0) (fun _ => 0) 0 1).1
      (by norm_num)).1 rfl,
   ((pan_zero_gain_amended 0 0 5 (fun _ => 2) (fun _ => 0) (fun _ => 0) 0 1).2
      (by norm_num) rfl).2⟩

/- ### Claim C6: effect sends -/

/-- C6: for each effect send, if the destination pointer is non-null and
the send gain non-zero then exactly `gain * dsp_buf[i]` is added to the
destination at every index of the block; a null destination is not
written at all. -/
theorem effect_sends_accumulate
    (dsp_reverb_buf dsp_chorus_buf : Option (ℕ → ℚ)) (amp_reverb amp_chorus : ℚ)
    (src : ℕ → ℚ) (dspStart dspEnd i : ℕ) (h1 : dspStart ≤ i) (h2 : i < dspEnd) :
    (∀ d, dsp_reverb_buf = some d → amp_reverb ≠ 0 →
      ∃ d2, (effectSends dsp_reverb_buf dsp_chorus_buf amp_reverb amp_chorus src dspStart dspEnd).1
          = some d2 ∧ d2 i = d i + amp_reverb * src i)
    ∧ (∀ d, dsp_chorus_buf = some d → amp_chorus ≠ 0 →
      ∃ d2, (effectSends dsp_reverb_buf dsp_chorus_buf amp_reverb amp_chorus src dspStart dspEnd).2
          = some d2 ∧ d2 i = d i + amp_chorus * src i)
    ∧ (dsp_reverb_buf = none →
      (effectSends dsp_reverb_buf dsp_chorus_buf amp_reverb amp_chorus src dspStart dspEnd).1 = none)
    ∧ (dsp_chorus_buf = none →
      (effectSends dsp_reverb_buf dsp_chorus_buf amp_reverb amp_chorus src dspStart dspEnd).2 = none) := by
  refine ⟨?_, ?_, ?_, ?_⟩
  · intro d hd hg
    refine ⟨addScaledLoop amp_reverb src (dspEnd - dspStart) dspStart d, ?_, ?_⟩
    · simp [effectSends, sendStage, hd, hg]
    · exact addScaledLoop_get amp_reverb src (dspEnd - dspStart) dspStart d i h1 (by omega)
  · intro d hd hg
    refine ⟨addScaledLoop amp_chorus src (dspEnd - dspStart) dspStart d, ?_, ?_⟩
    · simp [effectSends, sendStage, hd, hg]
    · exact addScaledLoop_get amp_chorus src (dspEnd - dspStart) dspStart d i h1 (by omega)
  · intro hd
    simp [effectSends, sendStage, hd]
  · intro hd
    simp [effectSends, sendStage, hd]

/-- Witness for C6 at concrete inputs: reverb buffer present with gain 3,
chorus pointer null. -/
theorem effect_sends_accumulate_witness :
    ∃ d2, (effectSends (some (fun _ => 4)) none 3 7 (fun _ => 2) 0 1).1 = some d2
      ∧ d2 0 = (fun _ => (4 : ℚ)) 0 + 3 * (fun _ => (2 : ℚ)) 0 := by
  have h := effect_sends_accumulate (some (fun _ => 4)) none 3 7 (fun _ => 2) 0 1 0
    (by omega) (by omega)
  exact h.1 (fun _ => 4) rfl (by norm_num)

/- ### Helper lemmas: filter loops -/

theorem filterTransLoop_coeffs (a1_incr a2_incr b02_incr b1_incr : ℚ) :
    ∀ (n i : ℕ) (st : FilterState),
      (filterTransLoop a1_incr a2_incr b02_incr b1_incr n i st).filter_coeff_incr_count
          = st.filter_coeff_incr_count - n
        ∧ (filterTransLoop a1_incr a2_incr b02_incr b1_incr n i st).a1
          = st.a1 + ((min n st.filter_coeff_incr_count.toNat : ℕ) : ℚ) * a1_incr
        ∧ (filterTransLoop a1_incr a2_incr b02_incr b1_incr n i st).a2
          = st.a2 + ((min n st.filter_coeff_incr_count.toNat : ℕ) : ℚ) * a2_incr
        ∧ (filterTransLoop a1_incr a2_incr b02_incr b1_incr n i st).b02
          = st.b02 + ((min n st.filter_coeff_incr_count.toNat : ℕ) : ℚ) * b02_incr
        ∧ (filterTransLoop a1_incr a2_incr b02_incr b1_incr n i st).b1
          = st.b1 + ((min n st.filter_coeff_incr_count.toNat : ℕ) : ℚ) * b1_incr := by
  intro n
  induction n with
  | zero =>
      intro i st
      simp [filterTransLoop]
  | succ n ih =>
      intro i st
      simp only [filterTransLoop]
      have h := ih (i + 1)
        { buf := fun j =>
            if j = i then st.b02 * ((st.buf i - st.a1 * st.hist1 - st.a2 * st.hist2) + st.hist2)
              + st.b1 * st.hist1
            else st.buf j
          hist1 := st.buf i - st.a1 * st.hist1 - st.a2 * st.hist2
          hist2 := st.hist1
          a1 := if 0 < st.filter_coeff_incr_count then st.a1 + a1_incr else st.a1
          a2 := if 0 < st.filter_coeff_incr_count then st.a2 + a2_incr else st.a2
          b02 := if 0 < st.filter_coeff_incr_count then st.b02 + b02_incr else st.b02
          b1 := if 0 < st.filter_coeff_incr_count then st.b1 + b1_incr else st.b1
          filter_coeff_incr_count := st.filter_coeff_incr_count - 1 }
      rcases h with ⟨hc, h1, h2, h3, h4⟩
      by_cases hpos : 0 < st.filter_coeff_incr_count
      · have hmin : min n (st.filter_coeff_incr_count - 1).toNat + 1
            = min (n + 1) st.filter_coeff_incr_count.toNat := by omega
        refine ⟨by rw [hc]; simp; ring, ?_, ?_, ?_, ?_⟩
        · rw [h1]; simp only [hpos, if_pos]
          rw [← hmin]; push_cast; ring
        · rw [h2]; simp only [hpos, if_pos]
          rw [← hmin]; push_cast; ring
        · rw [h3]; simp only [hpos, if_pos]
          rw [← hmin]; push_cast; ring
        · rw [h4]; simp only [hpos, if_pos]
          rw [← hmin]; push_cast; ring
      · have hz : st.filter_coeff_incr_count.toNat = 0 := by omega
        have hz2 : (st.filter_coeff_incr_count - 1).toNat = 0 := by omega
        refine ⟨by rw [hc]; simp; ring, ?_, ?_, ?_, ?_⟩
        · rw [h1]; simp [hpos, hz, hz2]
        · rw [h2]; simp [hpos, hz, hz2]
        · rw [h3]; simp [hpos, hz, hz2]
        · rw [h4]; simp [hpos, hz, hz2]

theorem filterTransLoop_add (a1_incr a2_incr b02_incr b1_incr : ℚ) :
    ∀ (m n i : ℕ) (st : FilterState),
      filterTransLoop a1_incr a2_incr b02_incr b1_incr (m + n) i st
        = filterTransLoop a1_incr a2_incr b02_incr b1_incr n (i + m)
            (filterTransLoop a1_incr a2_incr b02_incr b1_incr m i st) := by
  intro m
  induction m with
  | zero => intro n i st; simp [filterTransLoop]
  | succ m ih =>
      intro n i st
      have hsum : m + 1 + n = (m + n) + 1 := by omega
      rw [hsum]
      simp only [filterTransLoop]
      rw [ih n (i + 1) _]
      have : i + 1 + m = i + (m + 1) := by omega
      rw [this]

theorem filterTransLoop_buf_lt (a1_incr a2_incr b02_incr b1_incr : ℚ) :
    ∀ (n i : ℕ) (st : FilterState) (j : ℕ), j < i →
      (filterTransLoop a1_incr a2_incr b02_incr b1_incr n i st).buf j = st.buf j := by
  intro n
  induction n with
  | zero => intro i st j _; rfl
  | succ n ih =>
      intro i st j hj
      simp only [filterTransLoop]
      rw [ih (i + 1) _ j (by omega)]
      simp [Nat.ne_of_lt hj]

theorem filterStaticLoop_add :
    ∀ (m n i : ℕ) (st : FilterState),
      filterStaticLoop (m + n) i st = filterStaticLoop n (i + m) (filterStaticLoop m i st) := by
  intro m
  induction m with
  | zero => intro n i st; simp [filterStaticLoop]
  | succ m ih =>
      intro n i st
      have hsum : m + 1 + n = (m + n) + 1 := by omega
      rw [hsum]
      simp only [filterStaticLoop]
      rw [ih n (i + 1) _]
      have : i + 1 + m = i + (m + 1) := by omega
      rw [this]

theorem filterStaticLoop_buf_lt :
    ∀ (n i : ℕ) (st : FilterState) (j : ℕ), j < i →
      (filterStaticLoop n i st).buf j = st.buf j := by
  intro n
  induction n with
  | zero => intro i st j _; rfl
  | succ n ih =>
      intro i st j hj
      simp only [filterStaticLoop]
      rw [ih (i + 1) _ j (by omega)]
      simp [Nat.ne_of_lt hj]

/- ### Claim C3: coefficients reach target after exactly count samples -/

/-- C3: in the transitioning filter mode, for an initial remaining count
`c > 0` and a block of `B = dspEnd - dspStart ≥ c` samples, the stored
coefficients `a1, a2, b02, b1` each end at their initial value plus
exactly `c` times the per-sample increment: the increments stop after `c`
samples even though the block is longer. -/
theorem filter_coeffs_reach_target_after_count
    (a1_incr a2_incr b02_incr b1_incr : ℚ) (dspStart dspEnd : ℕ) (st : FilterState)
    (hc : 0 < st.filter_coeff_incr_count)
    (hB : st.filter_coeff_incr_count ≤ ((dspEnd - dspStart : ℕ) : ℤ)) :
    (filterStage true a1_incr a2_incr b02_incr b1_incr dspStart dspEnd st).a1
        = st.a1 + (st.filter_coeff_incr_count : ℚ) * a1_incr
      ∧ (filterStage true a1_incr a2_incr b02_incr b1_incr dspStart dspEnd st).a2
        = st.a2 + (st.filter_coeff_incr_count : ℚ) * a2_incr
      ∧ (filterStage true a1_incr a2_incr b02_incr b1_incr dspStart dspEnd st).b02
        = st.b02 + (st.filter_coeff_incr_count : ℚ) * b02_incr
      ∧ (filterStage true a1_incr a2_incr b02_incr b1_incr dspStart dspEnd st).b1
        = st.b1 + (st.filter_coeff_incr_count : ℚ) * b1_incr := by
  rw [filterStage]
  simp only [if_pos]
  rw [if_pos (show 0 < ({ st with hist1 := zap_almost_zero st.hist1 } :
    FilterState).filter_coeff_incr_count from hc)]
  have h := filterTransLoop_coeffs a1_incr a2_incr b02_incr b1_incr (dspEnd - dspStart) dspStart
    { st with hist1 := zap_almost_zero st.hist1 }
  have hmin : min (dspEnd - dspStart) st.filter_coeff_incr_count.toNat
      = st.filter_coeff_incr_count.toNat := by omega
  have hcast : ((st.filter_coeff_incr_count.toNat : ℕ) : ℚ)
      = (st.filter_coeff_incr_count : ℚ) := by
    rw [← Int.cast_natCast, Int.toNat_of_nonneg hc.le]
  rcases h with ⟨_, h1, h2, h3, h4⟩
  refine ⟨?_, ?_, ?_, ?_⟩
  · rw [h1]; simp only [hmin, hcast]
  · rw [h2]; simp only [hmin, hcast]
  · rw [h3]; simp only [hmin, hcast]
  · rw [h4]; simp only [hmin, hcast]

/-- Witness for C3: count `2`, block length `3`, all increments `1`,
coefficients starting at `0`. -/
theorem filter_coeffs_reach_target_after_count_witness :
    (filterStage true 1 1 1 1 0 3 ⟨fun _ => 0, 0, 0, 0, 0, 0, 0, 2⟩).a1
        = 0 + ((2 : ℤ) : ℚ) * 1
      ∧ (filterStage true 1 1 1 1 0 3 ⟨fun _ => 0, 0, 0, 0, 0, 0, 0, 2⟩).a2
        = 0 + ((2 : ℤ) : ℚ) * 1
      ∧ (filterStage true 1 1 1 1 0 3 ⟨fun _ => 0, 0, 0, 0, 0, 0, 0, 2⟩).b02
        = 0 + ((2 : ℤ) : ℚ) * 1
      ∧ (filterStage true 1 1 1 1 0 3 ⟨fun _ => 0, 0, 0, 0, 0, 0, 0, 2⟩).b1
        = 0 + ((2 : ℤ) : ℚ) * 1 :=
  filter_coeffs_reach_target_after_count 1 1 1 1 0 3 ⟨fun _ => 0, 0, 0, 0, 0, 0, 0, 2⟩
    (by norm_num) (by norm_num)

/- ### Claim C8: the persisted count is c − B -/

/-- C8: after a transitioning-filter block of length `B` starting with
remaining count `c > 0`, the count written back to the voice is `c − B`
(negative when `c < B`, because the counter is post-decremented on every
iteration even after it reaches zero), while the coefficient increments
are applied exactly `min(c, B)` times. -/
theorem filter_incr_count_goes_negative
    (a1_incr a2_incr b02_incr b1_incr : ℚ) (dspStart dspEnd : ℕ) (st : FilterState)
    (hc : 0 < st.filter_coeff_incr_count) :
    (filterStage true a1_incr a2_incr b02_incr b1_incr dspStart dspEnd st).filter_coeff_incr_count
        = st.filter_coeff_incr_count - ((dspEnd - dspStart : ℕ) : ℤ)
      ∧ (filterStage true a1_incr a2_incr b02_incr b1_incr dspStart dspEnd st).a1
        = st.a1 + ((min st.filter_coeff_incr_count.toNat (dspEnd - dspStart) : ℕ) : ℚ) * a1_incr
      ∧ (filterStage true a1_incr a2_incr b02_incr b1_incr dspStart dspEnd st).a2
        = st.a2 + ((min st.filter_coeff_incr_count.toNat (dspEnd - dspStart) : ℕ) : ℚ) * a2_incr
      ∧ (filterStage true a1_incr a2_incr b02_incr b1_incr dspStart dspEnd st).b02
        = st.b02 + ((min st.filter_coeff_incr_count.toNat (dspEnd - dspStart) : ℕ) : ℚ) * b02_incr
      ∧ (filterStage true a1_incr a2_incr b02_incr b1_incr dspStart dspEnd st).b1
        = st.b1 + ((min st.filter_coeff_incr_count.toNat (dspEnd - dspStart) : ℕ) : ℚ) * b1_incr := by
  rw [filterStage]
  simp only [if_pos]
  rw [if_pos (show 0 < ({ st with hist1 := zap_almost_zero st.hist1 } :
    FilterState).filter_coeff_incr_count from hc)]
  have h := filterTransLoop_coeffs a1_incr a2_incr b02_incr b1_incr (dspEnd - dspStart) dspStart
    { st with hist1 := zap_almost_zero st.hist1 }
  have hmin : min (dspEnd - dspStart) st.filter_coeff_incr_count.toNat
      = min st.filter_coeff_incr_count.toNat (dspEnd - dspStart) := Nat.min_comm _ _
  rcases h with ⟨hcnt, h1, h2, h3, h4⟩
  exact ⟨hcnt, by rw [h1, hmin], by rw [h2, hmin], by rw [h3, hmin], by rw [h4, hmin]⟩

/-- Witness for C8: count `1`, block length `3`: the persisted count is
`-2` and the increments were applied once. -/
theorem filter_incr_count_goes_negative_witness :
    (filterStage true 1 1 1 1 0 3 ⟨fun _ => 0, 0, 0, 0, 0, 0, 0, 1⟩).filter_coeff_incr_count
        = 1 - ((3 - 0 : ℕ) : ℤ)
      ∧ (filterStage true 1 1 1 1 0 3 ⟨fun _ => 0, 0, 0, 0, 0, 0, 0, 1⟩).a1
        = 0 + ((min (Int.toNat 1) (3 - 0) : ℕ) : ℚ) * 1
      ∧ (filterStage true 1 1 1 1 0 3 ⟨fun _ => 0, 0, 0, 0, 0, 0, 0, 1⟩).a2
        = 0 + ((min (Int.toNat 1) (3 - 0) : ℕ) : ℚ) * 1
      ∧ (filterStage true 1 1 1 1 0 3 ⟨fun _ => 0, 0, 0, 0, 0, 0, 0, 1⟩).b02
        = 0 + ((min (Int.toNat 1) (3 - 0) : ℕ) : ℚ) * 1
      ∧ (filterStage true 1 1 1 1 0 3 ⟨fun _ => 0, 0, 0, 0, 0, 0, 0, 1⟩).b1
        = 0 + ((min (Int.toNat 1) (3 - 0) : ℕ) : ℚ) * 1 :=
  filter_incr_count_goes_negative 1 1 1 1 0 3 ⟨fun _ => 0, 0, 0, 0, 0, 0, 0, 1⟩ (by norm_num)

/- ### Claim C4: both filter loops apply the Direct-Form-II recurrence -/

/-- C4: when the filter is enabled, every sample index in
`[dspStart, dspEnd)` of the block is transformed per the Direct-Form-II
recurrence (`centernode = in − a1·hist1 − a2·hist2;
out = b02·(centernode + hist2) + b1·hist1; hist2 ← hist1;
hist1 ← centernode`) with the coefficients and history registers current
at that sample — in the transitioning-coefficient loop and in the
static-coefficient loop alike (`filterStateBefore` computes the state of
whichever loop runs, just before sample `i`). -/
theorem filter_loops_apply_direct_form_ii
    (a1_incr a2_incr b02_incr b1_incr : ℚ) (dspStart dspEnd : ℕ) (st : FilterState)
    (i : ℕ) (h1 : dspStart ≤ i) (h2 : i < dspEnd) :
    (filterStage true a1_incr a2_incr b02_incr b1_incr dspStart dspEnd st).buf i
      = (directFormII
          (filterStateBefore a1_incr a2_incr b02_incr b1_incr dspStart i st).a1
          (filterStateBefore a1_incr a2_incr b02_incr b1_incr dspStart i st).a2
          (filterStateBefore a1_incr a2_incr b02_incr b1_incr dspStart i st).b02
          (filterStateBefore a1_incr a2_incr b02_incr b1_incr dspStart i st).b1
          ((filterStateBefore a1_incr a2_incr b02_incr b1_incr dspStart i st).hist1,
           (filterStateBefore a1_incr a2_incr b02_incr b1_incr dspStart i st).hist2)
          ((filterStateBefore a1_incr a2_incr b02_incr b1_incr dspStart i st).buf i)).1 := by
  rw [filterStage, filterStateBefore]
  simp only [if_pos]
  have hsplit : dspEnd - dspStart = (i - dspStart) + ((dspEnd - i - 1) + 1) := by omega
  have hidx : dspStart + (i - dspStart) = i := by omega
  by_cases hpos : 0 < ({ st with hist1 := zap_almost_zero st.hist1 } :
      FilterState).filter_coeff_incr_count
  · rw [if_pos hpos, if_pos hpos]
    rw [hsplit, filterTransLoop_add, hidx]
    simp only [filterTransLoop]
    rw [filterTransLoop_buf_lt _ _ _ _ _ (i + 1) _ i (by omega)]
    simp [directFormII]
  · rw [if_neg hpos, if_neg hpos]
    rw [hsplit, filterStaticLoop_add, hidx]
    simp only [filterStaticLoop]
    rw [filterStaticLoop_buf_lt _ (i + 1) _ i (by omega)]
    simp [directFormII]

/-- Witness for C4 at a concrete filtered block: coefficients
`a1 = 1, a2 = 0, b02 = 2, b1 = 0`, history `(3, 0)`, static mode
(count `0`), constant input `5`, sample index `1` of the block `[0, 2)`. -/
theorem filter_loops_apply_direct_form_ii_witness :
    (filterStage true 0 0 0 0 0 2 ⟨fun _ => 5, 3, 0, 1, 0, 2, 0, 0⟩).buf 1
      = (directFormII
          (filterStateBefore 0 0 0 0 0 1 ⟨fun _ => 5, 3, 0, 1, 0, 2, 0, 0⟩).a1
          (filterStateBefore 0 0 0 0 0 1 ⟨fun _ => 5, 3, 0, 1, 0, 2, 0, 0⟩).a2
          (filterStateBefore 0 0 0 0 0 1 ⟨fun _ => 5, 3, 0, 1, 0, 2, 0, 0⟩).b02
          (filterStateBefore 0 0 0 0 0 1 ⟨fun _ => 5, 3, 0, 1, 0, 2, 0, 0⟩).b1
          ((filterStateBefore 0 0 0 0 0 1 ⟨fun _ => 5, 3, 0, 1, 0, 2, 0, 0⟩).hist1,
           (filterStateBefore 0 0 0 0 0 1 ⟨fun _ => 5, 3, 0, 1, 0, 2, 0, 0⟩).hist2)
          ((filterStateBefore 0 0 0 0 0 1 ⟨fun _ => 5, 3, 0, 1, 0, 2, 0, 0⟩).buf 1)).1 :=
  filter_loops_apply_direct_form_ii 0 0 0 0 0 2 ⟨fun _ => 5, 3, 0, 1, 0, 2, 0, 0⟩ 1
    (by omega) (by omega)

/- ### Helper lemmas: interpolation loops -/

theorem fastPathLoop_buf_lt (data : ℕ → ℤ) (ampIncr : ℚ) :
    ∀ (n i : ℕ) (st : InterpState) (j : ℕ), j < i →
      (fastPathLoop data ampIncr n i st).buf j = st.buf j := by
  intro n
  induction n with
  | zero => intro i st j _; rfl
  | succ n ih =>
      intro i st j hj
      simp only [fastPathLoop]
      rw [ih (i + 1) _ j (by omega)]
      simp [Nat.ne_of_lt hj]

theorem fastPathLoop_buf (data : ℕ → ℤ) (ampIncr : ℚ) :
    ∀ (n i : ℕ) (st : InterpState), st.phase + n * 2 ^ 32 < 2 ^ 64 →
      ∀ j, i ≤ j → j < i + n →
        (fastPathLoop data ampIncr n i st).buf j
          = (st.amp + ((j - i : ℕ) : ℚ) * ampIncr)
              * ((data (fluid_phase_index st.phase + (j - i)) : ℤ) : ℚ) := by
  intro n
  induction n with
  | zero => intro i st _ j h1 h2; omega
  | succ n ih =>
      intro i st hov j h1 h2
      simp only [fastPathLoop]
      have hmod : (st.phase + 2 ^ 32) % 2 ^ 64 = st.phase + 2 ^ 32 :=
        Nat.mod_eq_of_lt (by omega)
      rcases eq_or_lt_of_le h1 with h | h
      · rw [fastPathLoop_buf_lt data ampIncr n (i + 1) _ j (by omega)]
        simp [← h, fluid_phase_index_plusplus]
      · have hih := ih (i + 1)
          { buf := fun k =>
              if k = i then st.amp * ((data (fluid_phase_index_plusplus st.phase).1 : ℤ) : ℚ)
              else st.buf k
            amp := st.amp + ampIncr
            phase := (fluid_phase_index_plusplus st.phase).2 }
          (by simp only [fluid_phase_index_plusplus]; rw [hmod]; omega)
          j (by omega) (by omega)
        rw [hih]
        simp only [fluid_phase_index_plusplus]
        rw [hmod]
        have hidx : fluid_phase_index (st.phase + 2 ^ 32) = fluid_phase_index st.phase + 1 := by
          simp only [fluid_phase_index]
          omega
        rw [hidx]
        have hk : j - i = (j - (i + 1)) + 1 := by omega
        have hcast : ((j - i : ℕ) : ℚ) = ((j - (i + 1) : ℕ) : ℚ) + 1 := by
          rw [hk]; push_cast; ring
        rw [hcast, show fluid_phase_index st.phase + 1 + (j - (i + 1))
              = fluid_phase_index st.phase + (j - i) from by omega]
        ring

theorem fastPathLoop_amp_phase (data : ℕ → ℤ) (ampIncr : ℚ) :
    ∀ (n i : ℕ) (st : InterpState),
      (fastPathLoop data ampIncr n i st).amp = st.amp + (n : ℚ) * ampIncr
        ∧ (fastPathLoop data ampIncr n i st).phase
          = (fun p => (p + 2 ^ 32) % 2 ^ 64)^[n] st.phase := by
  intro n
  induction n with
  | zero => intro i st; simp [fastPathLoop]
  | succ n ih =>
      intro i st
      simp only [fastPathLoop]
      have h := ih (i + 1)
        { buf := fun k =>
            if k = i then st.amp * ((data (fluid_phase_index_plusplus st.phase).1 : ℤ) : ℚ)
            else st.buf k
          amp := st.amp + ampIncr
          phase := (fluid_phase_index_plusplus st.phase).2 }
      refine ⟨?_, ?_⟩
      · rw [h.1]; push_cast; ring
      · rw [h.2, Function.iterate_succ_apply]
        rfl

theorem interpNoneLoop_amp_phase (data : ℕ → ℤ) (phaseIncr : ℕ) (ampIncr : ℚ) :
    ∀ (n i : ℕ) (st : InterpState),
      (interpNoneLoop data phaseIncr ampIncr n i st).amp = st.amp + (n : ℚ) * ampIncr
        ∧ (interpNoneLoop data phaseIncr ampIncr n i st).phase
          = (fun p => fluid_phase_incr p phaseIncr)^[n] st.phase := by
  intro n
  induction n with
  | zero => intro i st; simp [interpNoneLoop]
  | succ n ih =>
      intro i st
      simp only [interpNoneLoop]
      have h := ih (i + 1)
        { buf := fun k =>
            if k = i then st.amp * ((data (fluid_phase_index st.phase) : ℤ) : ℚ)
            else st.buf k
          amp := st.amp + ampIncr
          phase := fluid_phase_incr st.phase phaseIncr }
      refine ⟨by rw [h.1]; push_cast; ring, by rw [h.2, Function.iterate_succ_apply]⟩

theorem interpLinearLoop_amp_phase (data : ℕ → ℤ) (tbl : ℕ → InterpCoeffLin)
    (phaseIncr : ℕ) (ampIncr : ℚ) :
    ∀ (n i : ℕ) (st : InterpState),
      (interpLinearLoop data tbl phaseIncr ampIncr n i st).amp = st.amp + (n : ℚ) * ampIncr
        ∧ (interpLinearLoop data tbl phaseIncr ampIncr n i st).phase
          = (fun p => fluid_phase_incr p phaseIncr)^[n] st.phase := by
  intro n
  induction n with
  | zero => intro i st; simp [interpLinearLoop]
  | succ n ih =>
      intro i st
      simp only [interpLinearLoop]
      have h := ih (i + 1)
        { buf := fun k =>
            if k = i then st.amp
              * ((tbl (fluid_phase_fract_to_tablerow st.phase)).a0
                  * ((data (fluid_phase_index st.phase) : ℤ) : ℚ)
                + (tbl (fluid_phase_fract_to_tablerow st.phase)).a1
                  * ((data (fluid_phase_index st.phase + 1) : ℤ) : ℚ))
            else st.buf k
          amp := st.amp + ampIncr
          phase := fluid_phase_incr st.phase phaseIncr }
      refine ⟨by rw [h.1]; push_cast; ring, by rw [h.2, Function.iterate_succ_apply]⟩

theorem interp4thLoop_amp_phase (data : ℕ → ℤ) (tbl : ℕ → InterpCoeff)
    (phaseIncr : ℕ) (ampIncr : ℚ) :
    ∀ (n i : ℕ) (st : InterpState),
      (interp4thLoop data tbl phaseIncr ampIncr n i st).amp = st.amp + (n : ℚ) * ampIncr
        ∧ (interp4thLoop data tbl phaseIncr ampIncr n i st).phase
          = (fun p => fluid_phase_incr p phaseIncr)^[n] st.phase := by
  intro n
  induction n with
  | zero => intro i st; simp [interp4thLoop]
  | succ n ih =>
      intro i st
      simp only [interp4thLoop]
      have h := ih (i + 1)
        { buf := fun k =>
            if k = i then st.amp
              * ((tbl (fluid_phase_fract_to_tablerow st.phase)).a0
                  * ((data (fluid_phase_index st.phase) : ℤ) : ℚ)
                + (tbl (fluid_phase_fract_to_tablerow st.phase)).a1
                  * ((data (fluid_phase_index st.phase + 1) : ℤ) : ℚ)
                + (tbl (fluid_phase_fract_to_tablerow st.phase)).a2
                  * ((data (fluid_phase_index st.phase + 2) : ℤ) : ℚ)
                + (tbl (fluid_phase_fract_to_tablerow st.phase)).a3
                  * ((data (fluid_phase_index st.phase + 3) : ℤ) : ℚ))
            else st.buf k
          amp := st.amp + ampIncr
          phase := fluid_phase_incr st.phase phaseIncr }
      refine ⟨by rw [h.1]; push_cast; ring, by rw [h.2, Function.iterate_succ_apply]⟩

theorem interp7thLoop_amp_phase (data : ℕ → ℤ) (tbl : ℕ → ℕ → ℚ)
    (phaseIncr : ℕ) (ampIncr : ℚ) :
    ∀ (n i : ℕ) (st : InterpState),
      (interp7thLoop data tbl phaseIncr ampIncr n i st).amp = st.amp + (n : ℚ) * ampIncr
        ∧ (interp7thLoop data tbl phaseIncr ampIncr n i st).phase
          = (fun p => fluid_phase_incr p phaseIncr)^[n] st.phase := by
  intro n
  induction n with
  | zero => intro i st; simp [interp7thLoop]
  | succ n ih =>
      intro i st
      simp only [interp7thLoop]
      have h := ih (i + 1)
        { buf := fun k =>
            if k = i then st.amp
              * (tbl 0 (fluid_phase_fract_to_tablerow st.phase)
                  * ((data (fluid_phase_index st.phase) : ℤ) : ℚ)
                + tbl 1 (fluid_phase_fract_to_tablerow st.phase)
                  * ((data (fluid_phase_index st.phase + 1) : ℤ) : ℚ)
                + tbl 2 (fluid_phase_fract_to_tablerow st.phase)
                  * ((data (fluid_phase_index st.phase + 2) : ℤ) : ℚ)
                + tbl 3 (fluid_phase_fract_to_tablerow st.phase)
                  * ((data (fluid_phase_index st.phase + 3) : ℤ) : ℚ)
                + tbl 4 (fluid_phase_fract_to_tablerow st.phase)
                  * ((data (fluid_phase_index st.phase + 4) : ℤ) : ℚ)
                + tbl 5 (fluid_phase_fract_to_tablerow st.phase)
                  * ((data (fluid_phase_index st.phase + 5) : ℤ) : ℚ)
                + tbl 6 (fluid_phase_fract_to_tablerow st.phase)
                  * ((data (fluid_phase_index st.phase + 6) : ℤ) : ℚ))
            else st.buf k
          amp := st.amp + ampIncr
          phase := fluid_phase_incr st.phase phaseIncr }
      refine ⟨by rw [h.1]; push_cast; ring, by rw [h.2, Function.iterate_succ_apply]⟩

/- ### Claim C1: the fast path bypasses interpolation -/

/-- C1: when the fractional phase is exactly `0`, the phase-increment
integer part is exactly `1` and its fractional part exactly `0`, every
output sample of the block equals the current amplitude
(`amp + (i − dspStart)·amp_incr`) times the raw data value at the
successive integer phase indices — exactly, and independently of the
selected interpolation method (the interpolation `switch` is never
reached).  The overflow hypothesis keeps the 32-bit integer index of the
spec-modelled phase from wrapping during the block. -/
theorem fast_path_bypasses_interpolation
    (method : fluid_interp) (data : ℕ → ℤ) (lin : ℕ → InterpCoeffLin)
    (quad : ℕ → InterpCoeff) (sinc : ℕ → ℕ → ℚ) (dspStart dspEnd : ℕ)
    (phaseIncr : ℕ) (ampIncr : ℚ) (st : InterpState)
    (hf : fluid_phase_fract st.phase = 0) (hfi : fluid_phase_fract phaseIncr = 0)
    (hii : fluid_phase_index phaseIncr = 1)
    (hov : st.phase + (dspEnd - dspStart) * 2 ^ 32 < 2 ^ 64)
    (i : ℕ) (h1 : dspStart ≤ i) (h2 : i < dspEnd) :
    (interpolateBlock method data lin quad sinc dspStart dspEnd phaseIncr ampIncr st).buf i
      = (st.amp + ((i - dspStart : ℕ) : ℚ) * ampIncr)
          * ((data (fluid_phase_index st.phase + (i - dspStart)) : ℤ) : ℚ) := by
  unfold interpolateBlock
  rw [if_pos ⟨hf, hfi, hii⟩]
  exact fastPathLoop_buf data ampIncr (dspEnd - dspStart) dspStart st hov i h1 (by omega)

/-- Witness for C1: data table `k ↦ k`, phase `0`, increment one whole
sample, amplitude starting at `1` with increment `1`, block `[0, 2)`,
sample `1`, under 7th-order interpolation (whose table is never read). -/
theorem fast_path_bypasses_interpolation_witness :
    (interpolateBlock .FLUID_INTERP_7THORDER (fun k => (k : ℤ)) (fun _ => ⟨0, 0⟩)
        (fun _ => ⟨0, 0, 0, 0⟩) (fun _ _ => 0) 0 2 (2 ^ 32) 1 ⟨fun _ => 0, 1, 0⟩).buf 1
      = (1 + ((1 - 0 : ℕ) : ℚ) * 1)
          * ((((fun k => (k : ℤ)) (fluid_phase_index 0 + (1 - 0))) : ℤ) : ℚ) :=
  fast_path_bypasses_interpolation .FLUID_INTERP_7THORDER (fun k => (k : ℤ)) (fun _ => ⟨0, 0⟩)
    (fun _ => ⟨0, 0, 0, 0⟩) (fun _ _ => 0) 0 2 (2 ^ 32) 1 ⟨fun _ => 0, 1, 0⟩
    (by decide) (by decide) (by decide) (by decide) 1 (by omega) (by omega)

/- ### Claim C7: end-of-block amplitude and phase -/

/-- C7: for every interpolation method (fast path included), rendering a
block of `N = dspEnd − dspStart` samples leaves the amplitude at its
initial value plus `N · amp_incr` and leaves the phase advanced by
exactly `N` applications of the phase increment, so the next block
continues from the end-of-block state. -/
theorem interpolation_advances_amp_and_phase
    (method : fluid_interp) (data : ℕ → ℤ) (lin : ℕ → InterpCoeffLin)
    (quad : ℕ → InterpCoeff) (sinc : ℕ → ℕ → ℚ) (dspStart dspEnd : ℕ)
    (phaseIncr : ℕ) (ampIncr : ℚ) (st : InterpState) :
    (interpolateBlock method data lin quad sinc dspStart dspEnd phaseIncr ampIncr st).amp
        = st.amp + ((dspEnd - dspStart : ℕ) : ℚ) * ampIncr
      ∧ (interpolateBlock method data lin quad sinc dspStart dspEnd phaseIncr ampIncr st).phase
        = (fun p => fluid_phase_incr p phaseIncr)^[dspEnd - dspStart] st.phase := by
  unfold interpolateBlock
  by_cases hcond : fluid_phase_fract st.phase = 0 ∧ fluid_phase_fract phaseIncr = 0
      ∧ fluid_phase_index phaseIncr = 1
  · rw [if_pos hcond]
    have hpinc : phaseIncr = 2 ^ 32 := by
      rcases hcond with ⟨_, hfr, hidx⟩
      simp only [fluid_phase_fract, fluid_phase_index] at hfr hidx
      omega
    subst hpinc
    have h := fastPathLoop_amp_phase data ampIncr (dspEnd - dspStart) dspStart st
    exact ⟨h.1, by rw [h.2]; rfl⟩
  · rw [if_neg hcond]
    cases method
    · exact interpNoneLoop_amp_phase data phaseIncr ampIncr (dspEnd - dspStart) dspStart st
    · exact interpLinearLoop_amp_phase data lin phaseIncr ampIncr (dspEnd - dspStart) dspStart st
    · exact interp4thLoop_amp_phase data quad phaseIncr ampIncr (dspEnd - dspStart) dspStart st
    · exact interp7thLoop_amp_phase data sinc phaseIncr ampIncr (dspEnd - dspStart) dspStart st

/- ### Claim C10: 24-bit sample reconstruction -/

theorem lor_eq_add_of_byte (x l : ℕ) (hx : 2 ^ 8 ∣ x) (hl : l < 2 ^ 8) :
    x ||| l = x + l := by
  obtain ⟨k, rfl⟩ := hx
  apply Nat.eq_of_testBit_eq
  intro j
  rw [Nat.testBit_lor, Nat.testBit_mul_pow_two_add k hl j]
  have h0 : Nat.testBit (2 ^ 8 * k) j
      = if j < 8 then Nat.testBit 0 j else Nat.testBit k (j - 8) := by
    have := Nat.testBit_mul_pow_two_add k (show (0 : ℕ) < 2 ^ 8 by norm_num) j
    simpa using this
  rw [h0]
  by_cases hj : j < 8
  · simp [hj]
  · have hfalse : Nat.testBit l j = false :=
      Nat.testBit_eq_false_of_lt
        (lt_of_lt_of_le hl (Nat.pow_le_pow_right (by norm_num) (by omega)))
    simp [hj, hfalse]

theorem get_sample_if_eq (s : ℤ) (l : ℕ)
    (hs1 : -(2 ^ 15) ≤ s) (hs2 : s < 2 ^ 15) (hl : l < 2 ^ 8) :
    (if ((((s % (2 ^ 32 : ℤ)).toNat * 2 ^ 8) % 2 ^ 32) ||| l) < 2 ^ 31
      then (((((s % (2 ^ 32 : ℤ)).toNat * 2 ^ 8) % 2 ^ 32) ||| l : ℕ) : ℤ)
      else (((((s % (2 ^ 32 : ℤ)).toNat * 2 ^ 8) % 2 ^ 32) ||| l : ℕ) : ℤ) - 2 ^ 32)
      = 2 ^ 8 * s + l := by
  set u : ℕ := (s % (2 ^ 32 : ℤ)).toNat with hu
  have hucast : (u : ℤ) = s % (2 ^ 32 : ℤ) :=
    Int.toNat_of_nonneg (Int.emod_nonneg s (by norm_num))
  set x : ℕ := (u * 2 ^ 8) % 2 ^ 32 with hxdef
  have hdvd : 2 ^ 8 ∣ x := by
    rw [hxdef]
    rw [Nat.dvd_mod_iff (by norm_num : (2 ^ 8 : ℕ) ∣ 2 ^ 32)]
    exact ⟨u, by ring⟩
  rw [lor_eq_add_of_byte x l hdvd hl]
  rcases le_or_lt 0 s with hpos | hneg
  · have humod : (s % (2 ^ 32 : ℤ)) = s := Int.emod_eq_of_lt hpos (by omega)
    have huval : (u : ℤ) = s := by rw [hucast, humod]
    have hx : x = u * 2 ^ 8 := by
      rw [hxdef]
      exact Nat.mod_eq_of_lt (by omega)
    have hxlt : x + l < 2 ^ 31 := by omega
    rw [if_pos hxlt]
    push_cast
    rw [hx]
    push_cast
    omega
  · have humod : (s % (2 ^ 32 : ℤ)) = s + 2 ^ 32 := by omega
    have huval : (u : ℤ) = s + 2 ^ 32 := by rw [hucast, humod]
    have hxval : (x : ℤ) = 2 ^ 8 * s + 2 ^ 32 := by
      rw [hxdef]
      omega
    have hxge : ¬(x + l < 2 ^ 31) := by omega
    rw [if_neg hxge]
    push_cast
    omega

/-- C10: `fluid_rvoice_get_sample` returns exactly
`256 · msb[idx] + lsb[idx]` as a signed 32-bit value — the sign of the
signed 16-bit sample survives the unsigned shift-and-or — and exactly
`256 · msb[idx]` when the low-order-byte pointer is NULL.  `msb[idx]`
ranges over C `short` and `lsb[idx]` holds a byte value. -/
theorem fluid_rvoice_get_sample_correct
    (dsp_msb : ℕ → ℤ) (lsbf : ℕ → ℤ) (idx : ℕ)
    (hs1 : -(2 ^ 15) ≤ dsp_msb idx) (hs2 : dsp_msb idx < 2 ^ 15)
    (hl1 : 0 ≤ lsbf idx) (hl2 : lsbf idx < 2 ^ 8) :
    fluid_rvoice_get_sample dsp_msb (some lsbf) idx = 2 ^ 8 * dsp_msb idx + lsbf idx
      ∧ fluid_rvoice_get_sample dsp_msb none idx = 2 ^ 8 * dsp_msb idx := by
  constructor
  · have hlmod : lsbf idx % (2 ^ 8 : ℤ) = lsbf idx := Int.emod_eq_of_lt hl1 hl2
    have hlnat : (((lsbf idx % (2 ^ 8 : ℤ)).toNat : ℕ) : ℤ) = lsbf idx := by
      rw [hlmod]
      exact Int.toNat_of_nonneg hl1
    have hlt : ((lsbf idx % (2 ^ 8 : ℤ)).toNat : ℕ) < 2 ^ 8 := by omega
    have h := get_sample_if_eq (dsp_msb idx) ((lsbf idx % (2 ^ 8 : ℤ)).toNat) hs1 hs2 hlt
    rw [hlnat] at h
    exact h
  · have h := get_sample_if_eq (dsp_msb idx) 0 hs1 hs2 (by norm_num)
    simpa [fluid_rvoice_get_sample] using h

/-- Witness for C10 at a negative 16-bit sample `-2` with low byte `3`:
the 24-bit reconstruction is `-512 + 3 = -509`, and `-512` without the
low byte. -/
theorem fluid_rvoice_get_sample_correct_witness :
    fluid_rvoice_get_sample (fun _ => -2) (some (fun _ => 3)) 0
        = 2 ^ 8 * (fun _ => (-2 : ℤ)) 0 + (fun _ => (3 : ℤ)) 0
      ∧ fluid_rvoice_get_sample (fun _ => -2) none 0 = 2 ^ 8 * (fun _ => (-2 : ℤ)) 0 :=
  fluid_rvoice_get_sample_correct (fun _ => -2) (fun _ => 3) 0
    (by norm_num) (by norm_num) (by norm_num) (by norm_num)
